import Mathlib

/-!
Verification of the drag-reorder engine of `@lumjs/web-draggable-list`
(src/index.js), as a shallow embedding.

Elements are modelled as natural-number identities. The container's matched
item sequence (DOM order) is a `List Nat`. A `DragEvent` carries the mutable
flags the handlers touch (`preventDefault`, `stopPropagation`,
`stopImmediatePropagation`, the `dataTransfer` intents, and the `oldpos` /
`newpos` metadata added on drop). Callback hooks are modelled as an emitted
log of `Callback` values, since user callbacks are opaque to the engine.
-/

namespace DraggableList

/-- A drag event, with the fields the handlers in src/index.js read or write.
`target` is the item element the event was dispatched to. -/
structure DragEvent where
  target : Nat
  defaultPrevented : Bool
  propagationStopped : Bool
  immediatePropagationStopped : Bool
  effectAllowed : Option String
  dropEffect : Option String
  oldpos : Option Nat
  newpos : Option Nat
deriving DecidableEq, Repr

/-- A fresh event dispatched at `target`: no flag set, no metadata. -/
def mkEvent (t : Nat) : DragEvent :=
  ⟨t, false, false, false, none, none, none, none⟩

/-- The state of one DraggableList instance that the drag handlers touch:
the matched item sequence (DOM order) and `this.dragging`. -/
structure ListState where
  items : List Nat
  dragging : Option Nat
deriving DecidableEq, Repr

/-- A callback hook invocation, recording which hook fired and the event
object it received. -/
inductive Callback where
  | onStart (ev : DragEvent)
  | onOver (ev : DragEvent)
  | onEnter (ev : DragEvent)
  | onLeave (ev : DragEvent)
  | onDrop (ev : DragEvent)
  | onEnd (ev : DragEvent)
deriving DecidableEq, Repr

/-- Ordinal index of an element in a sequence; models the external query
utility `WC.ez.indexOf` used by handleDrop, per its contract in the spec
(ordinal index of the element among the matched item set, in document
order). Absent elements yield the list length (a not-found sentinel). -/
def indexOf (e : Nat) : List Nat → Nat
  | [] => 0
  | x :: xs => if x = e then 0 else indexOf e xs + 1

/-- Insert `d` immediately before the first occurrence of `t`. -/
def insertBefore (d t : Nat) : List Nat → List Nat
  | [] => []
  | x :: xs => if x = t then d :: x :: xs else x :: insertBefore d t xs

/-- Insert `d` immediately after the first occurrence of `t`. -/
def insertAfter (d t : Nat) : List Nat → List Nat
  | [] => []
  | x :: xs => if x = t then x :: d :: xs else x :: insertAfter d t xs

/-- DOM `target.before(dragged)` on the item sequence: the dragged node is
first removed from its current position, then inserted immediately before
the target. -/
def moveBefore (l : List Nat) (target dragged : Nat) : List Nat :=
  insertBefore dragged target (l.erase dragged)

/-- DOM `target.after(dragged)` on the item sequence. -/
def moveAfter (l : List Nat) (target dragged : Nat) : List Nat :=
  insertAfter dragged target (l.erase dragged)

/-- handleDragStart (src/index.js lines 283-287): unconditionally records
the event target as the dragged element, sets `effectAllowed` to "move",
and invokes `onStart`. -/
def handleDragStart (s : ListState) (ev : DragEvent) :
    ListState × DragEvent × List Callback :=
  let s' := { s with dragging := some ev.target }
  let ev' := { ev with effectAllowed := some "move" }
  (s', ev', [Callback.onStart ev'])

/-- handleDragOver (lines 289-295): only acts while `this.dragging` is set;
then prevents default, sets `dropEffect` to "move", and invokes `onOver`. -/
def handleDragOver (s : ListState) (ev : DragEvent) :
    ListState × DragEvent × List Callback :=
  match s.dragging with
  | none => (s, ev, [])
  | some _ =>
    let ev' := { ev with defaultPrevented := true, dropEffect := some "move" }
    (s, ev', [Callback.onOver ev'])

/-- handleDragEnter (lines 297-301). -/
def handleDragEnter (s : ListState) (ev : DragEvent) :
    ListState × DragEvent × List Callback :=
  match s.dragging with
  | none => (s, ev, [])
  | some _ => (s, ev, [Callback.onEnter ev])

/-- handleDragLeave (lines 303-307). -/
def handleDragLeave (s : ListState) (ev : DragEvent) :
    ListState × DragEvent × List Callback :=
  match s.dragging with
  | none => (s, ev, [])
  | some _ => (s, ev, [Callback.onLeave ev])

/-- handleDragEnd (lines 309-312): invokes `onEnd` and clears
`this.dragging`, with no guard. -/
def handleDragEnd (s : ListState) (ev : DragEvent) :
    ListState × DragEvent × List Callback :=
  ({ s with dragging := none }, ev, [Callback.onEnd ev])

/-- handleDrop (lines 314-339): returns early when no session is active;
otherwise stops propagation (also immediate) and prevents default, then,
unless the drop is onto the dragged element itself, computes both indices
in the pre-move order, relocates the dragged element before/after the
target according to the index comparison, attaches `oldpos` / `newpos`,
and invokes `onDrop`. -/
def handleDrop (s : ListState) (ev : DragEvent) :
    ListState × DragEvent × List Callback :=
  match s.dragging with
  | none => (s, ev, [])
  | some dragged =>
    let ev1 := { ev with propagationStopped := true,
                         immediatePropagationStopped := true,
                         defaultPrevented := true }
    if dragged = ev1.target then
      (s, ev1, [])
    else
      let ia := indexOf dragged s.items
      let ib := indexOf ev1.target s.items
      let items' := if ia > ib then moveBefore s.items ev1.target dragged
                    else moveAfter s.items ev1.target dragged
      let ev2 := { ev1 with oldpos := some ia, newpos := some ib }
      ({ s with items := items' }, ev2, [Callback.onDrop ev2])

/-!
Registration bookkeeping (registerDelegation / makeDraggable), modelling
`this.registration` (a Map from element to a registry object holding one
subscription handle per drag event name), the live listener table of the
DOM (how many live subscriptions each (element, event-name) pair has: each
`on(...)` call adds one, each handle's `off()` removes that one), and the
`draggable` attribute values.
-/

/-- The six drag event names, in the order of the DRAG_METHODS array
(each method name maps to its event name via replace + toLowerCase). -/
inductive DragEventName where
  | dragstart
  | dragenter
  | dragover
  | dragleave
  | drop
  | dragend
deriving DecidableEq, Repr

/-- Event names derived from the DRAG_METHODS array, in source order. -/
def DRAG_METHODS : List DragEventName :=
  [.dragstart, .dragenter, .dragover, .dragleave, .drop, .dragend]

/-- Lookup in an association list modelling a JS Map (first match wins;
JS Map keys are unique). `d` is the default for an absent key. -/
def mapGet {α : Type} (m : List (Nat × α)) (e : Nat) (d : α) : α :=
  match m with
  | [] => d
  | (k, v) :: rest => if k = e then v else mapGet rest e d

/-- `Map.set`: replace the value of an existing key, else append. -/
def mapSet {α : Type} (m : List (Nat × α)) (e : Nat) (v : α) : List (Nat × α) :=
  match m with
  | [] => [(e, v)]
  | (k, w) :: rest => if k = e then (k, v) :: rest else (k, w) :: mapSet rest e v

/-- State of one instance's registration bookkeeping. `listeners` is the
DOM's listener table: how many live subscriptions exist per
(element, event name). `registration` maps an element to its registry:
the set of event names whose subscription handle is currently stored
(`isObj(registry[eventName])`). `attrs` holds `draggable` attribute
values. -/
structure RegState where
  listElem : Nat
  listeners : Nat × DragEventName → Nat
  registration : List (Nat × List DragEventName)
  attrs : List (Nat × String)

/-- The freshly constructed state: `this.registration = new Map()`,
no listeners installed, no attributes written. -/
def initRegState (le : Nat) : RegState :=
  ⟨le, fun _ => 0, [], []⟩

/-- One iteration of the `for (let meth of DRAG_METHODS)` loop shared by
registerDelegation and makeDraggable: if the registry already holds a
handle for this event name, call its `off()` (removing that one live
listener) and delete the registry entry; then, when enabling, install a
fresh listener and store its handle. -/
def regStep (elem : Nat) (enabled : Bool)
    (st : (Nat × DragEventName → Nat) × List DragEventName)
    (evn : DragEventName) :
    (Nat × DragEventName → Nat) × List DragEventName :=
  let ls := st.1
  let reg := st.2
  let ls1 := if evn ∈ reg then
      (fun q => if q = (elem, evn) then ls q - 1 else ls q) else ls
  let reg1 := if evn ∈ reg then reg.filter (fun x => !(x == evn)) else reg
  if enabled then
    ((fun q => if q = (elem, evn) then ls1 q + 1 else ls1 q), reg1 ++ [evn])
  else
    (ls1, reg1)

/-- registerDelegation (src/index.js lines 176-205): runs the loop over
the six event names against the container element's registry, then stores
the registry back in the Map. -/
def registerDelegation (s : RegState) (enabled : Bool) : RegState :=
  let elem := s.listElem
  let st := DRAG_METHODS.foldl (regStep elem enabled)
      (s.listeners, mapGet s.registration elem [])
  { s with listeners := st.1, registration := mapSet s.registration elem st.2 }

/-- The per-element body of makeDraggable (lines 250-276): set the
`draggable` attribute to the string of `enabled`; in non-delegated mode,
additionally run the same six-event registration loop against this
element's registry. -/
def makeDraggableOne (delegated enabled : Bool) (s : RegState) (elem : Nat) :
    RegState :=
  let s1 := { s with
    attrs := mapSet s.attrs elem (if enabled then "true" else "false") }
  if delegated then s1
  else
    let st := DRAG_METHODS.foldl (regStep elem enabled)
        (s1.listeners, mapGet s1.registration elem [])
    { s1 with listeners := st.1,
              registration := mapSet s1.registration elem st.2 }

/-- The `for (let elem of elems)` loop of makeDraggable (lines 241-278).
Each entry is `some e` when the argument resolved to an Element, `none`
when it did not (a selector with no match, or a non-Element value): there
the loop throws `TypeError("invalid Element")`, modelled by the `true`
error flag, leaving the state mutated so far in place. -/
def makeDraggableLoop (delegated enabled : Bool) (s : RegState) :
    List (Option Nat) → RegState × Bool
  | [] => (s, false)
  | none :: _ => (s, true)
  | some e :: rest =>
    makeDraggableLoop delegated enabled (makeDraggableOne delegated enabled s e) rest

/-- An enable/disable call on the public surface. -/
inductive RegOp where
  | deleg (enabled : Bool)
  | makeDrag (enabled : Bool) (elems : List Nat)

/-- Apply one call. `delegated` is the instance's `opts.delegated`. -/
def applyOp (delegated : Bool) (s : RegState) : RegOp → RegState
  | .deleg enabled => registerDelegation s enabled
  | .makeDrag enabled elems =>
    (makeDraggableLoop delegated enabled s (elems.map some)).1

/-- Run a sequence of enable/disable calls. -/
def runOps (delegated : Bool) (s : RegState) (ops : List RegOp) : RegState :=
  ops.foldl (applyOp delegated) s

/-- A container reference as accepted by the constructor: an Element, a
selector string, or some other (non-Element, non-string) value. -/
inductive ElemRef where
  | el (e : Nat)
  | sel (s : String)
  | bad

/-- Resolution of a constructor reference against a document
(`document.querySelector` modelled as a partial map from selector
strings to elements). -/
def resolveRef (doc : String → Option Nat) : ElemRef → Option Nat
  | .el e => some e
  | .sel s => doc s
  | .bad => none

/-- Constructor options relevant to the registration logic. -/
structure CtorOpts where
  delegated : Bool
  autoRegister : Option Bool
deriving DecidableEq, Repr

/-- The constructor (lines 127-152), minus the external touch adapter:
resolve the container reference (selector strings via the document),
throw `TypeError("invalid Element")` when it is not an Element, then
register delegation when `opts.delegated`, and call makeDraggable with no
arguments (the current `listItems`) when `opts.autoRegister ?? !opts.delegated`. -/
def constructList (doc : String → Option Nat) (ref : ElemRef)
    (opts : CtorOpts) (listItems : List Nat) : Except String RegState :=
  match resolveRef doc ref with
  | none => Except.error "invalid Element"
  | some le =>
    let s := initRegState le
    let s := if opts.delegated then registerDelegation s true else s
    let s := if opts.autoRegister.getD (!opts.delegated) then
        (makeDraggableLoop opts.delegated true s (listItems.map some)).1
      else s
    Except.ok s

/-- `a` occurs immediately before `b` somewhere in `l`. -/
def immediatelyBefore (a b : Nat) (l : List Nat) : Prop :=
  ∃ l1 l2, l = l1 ++ a :: b :: l2

lemma insertBefore_eq_append (d t : Nat) (l : List Nat) (ht : t ∈ l) :
    ∃ l1 l2, insertBefore d t l = l1 ++ d :: t :: l2 := by
  induction l with
  | nil => cases ht
  | cons x xs ih =>
    by_cases hx : x = t
    · subst hx
      exact ⟨[], xs, by simp [insertBefore]⟩
    · have ht' : t ∈ xs := by
        rcases List.mem_cons.mp ht with h | h
        · exact absurd h.symm hx
        · exact h
      obtain ⟨l1, l2, hl⟩ := ih ht'
      exact ⟨x :: l1, l2, by simp [insertBefore, hx, hl]⟩

lemma insertAfter_eq_append (d t : Nat) (l : List Nat) (ht : t ∈ l) :
    ∃ l1 l2, insertAfter d t l = l1 ++ t :: d :: l2 := by
  induction l with
  | nil => cases ht
  | cons x xs ih =>
    by_cases hx : x = t
    · subst hx
      exact ⟨[], xs, by simp [insertAfter]⟩
    · have ht' : t ∈ xs := by
        rcases List.mem_cons.mp ht with h | h
        · exact absurd h.symm hx
        · exact h
      obtain ⟨l1, l2, hl⟩ := ih ht'
      exact ⟨x :: l1, l2, by simp [insertAfter, hx, hl]⟩

lemma insertBefore_perm (d t : Nat) (l : List Nat) (ht : t ∈ l) :
    List.Perm (insertBefore d t l) (d :: l) := by
  induction l with
  | nil => cases ht
  | cons x xs ih =>
    by_cases hx : x = t
    · subst hx
      simp [insertBefore]
    · have ht' : t ∈ xs := by
        rcases List.mem_cons.mp ht with h | h
        · exact absurd h.symm hx
        · exact h
      have h1 : List.Perm (x :: insertBefore d t xs) (x :: d :: xs) :=
        List.Perm.cons x (ih ht')
      have h2 : List.Perm (x :: d :: xs) (d :: x :: xs) := List.Perm.swap d x xs
      simpa [insertBefore, hx] using h1.trans h2

lemma insertAfter_perm (d t : Nat) (l : List Nat) (ht : t ∈ l) :
    List.Perm (insertAfter d t l) (d :: l) := by
  induction l with
  | nil => cases ht
  | cons x xs ih =>
    by_cases hx : x = t
    · subst hx
      have hsw : List.Perm (x :: d :: xs) (d :: x :: xs) := List.Perm.swap d x xs
      simpa [insertAfter] using hsw
    · have ht' : t ∈ xs := by
        rcases List.mem_cons.mp ht with h | h
        · exact absurd h.symm hx
        · exact h
      have h1 : List.Perm (x :: insertAfter d t xs) (x :: d :: xs) :=
        List.Perm.cons x (ih ht')
      have h2 : List.Perm (x :: d :: xs) (d :: x :: xs) := List.Perm.swap d x xs
      simpa [insertAfter, hx] using h1.trans h2

lemma moveBefore_perm (l : List Nat) (t d : Nat) (hd : d ∈ l) (ht : t ∈ l)
    (hne : d ≠ t) : List.Perm (moveBefore l t d) l := by
  have ht' : t ∈ l.erase d := (List.mem_erase_of_ne hne.symm).mpr ht
  have h1 : List.Perm (insertBefore d t (l.erase d)) (d :: l.erase d) :=
    insertBefore_perm d t _ ht'
  exact h1.trans (List.perm_cons_erase hd).symm

lemma moveAfter_perm (l : List Nat) (t d : Nat) (hd : d ∈ l) (ht : t ∈ l)
    (hne : d ≠ t) : List.Perm (moveAfter l t d) l := by
  have ht' : t ∈ l.erase d := (List.mem_erase_of_ne hne.symm).mpr ht
  have h1 : List.Perm (insertAfter d t (l.erase d)) (d :: l.erase d) :=
    insertAfter_perm d t _ ht'
  exact h1.trans (List.perm_cons_erase hd).symm

lemma handleDrop_items (items : List Nat) (d : Nat) (ev : DragEvent)
    (hne : d ≠ ev.target) :
    (handleDrop ⟨items, some d⟩ ev).1.items
      = if indexOf d items > indexOf ev.target items
        then moveBefore items ev.target d
        else moveAfter items ev.target d := by
  simp [handleDrop, hne]

/-- Claim C1: for every drop handled in the Dragging state with
dragged distinct from target, the reorder is a permutation of the item
sequence that places the dragged element immediately before the target
when oldIndex is greater than newIndex, and immediately after it
otherwise; on the list [0,1,2,3] (standing for [A,B,C,D]), dragging 0
onto 2 yields [1,2,0,3] and dragging 3 onto 1 yields [0,3,1,2]. -/
theorem C1_drop_reorder :
    (∀ (items : List Nat) (d : Nat) (ev : DragEvent),
        d ∈ items → ev.target ∈ items → d ≠ ev.target →
        List.Perm (handleDrop ⟨items, some d⟩ ev).1.items items ∧
        (indexOf d items > indexOf ev.target items →
          immediatelyBefore d ev.target (handleDrop ⟨items, some d⟩ ev).1.items) ∧
        (¬ indexOf d items > indexOf ev.target items →
          immediatelyBefore ev.target d (handleDrop ⟨items, some d⟩ ev).1.items)) ∧
    (handleDrop ⟨[0, 1, 2, 3], some 0⟩ (mkEvent 2)).1.items = [1, 2, 0, 3] ∧
    (handleDrop ⟨[0, 1, 2, 3], some 3⟩ (mkEvent 1)).1.items = [0, 3, 1, 2] := by
  refine ⟨?_, by decide, by decide⟩
  intro items d ev hd ht hne
  have ht' : ev.target ∈ items.erase d :=
    (List.mem_erase_of_ne (Ne.symm hne)).mpr ht
  rw [handleDrop_items items d ev hne]
  by_cases hgt : indexOf d items > indexOf ev.target items
  · refine ⟨by simpa [hgt] using moveBefore_perm items ev.target d hd ht hne,
      fun _ => ?_, fun h => absurd hgt h⟩
    obtain ⟨l1, l2, hl⟩ := insertBefore_eq_append d ev.target (items.erase d) ht'
    exact ⟨l1, l2, by simpa [hgt, moveBefore] using hl⟩
  · refine ⟨by simpa [hgt] using moveAfter_perm items ev.target d hd ht hne,
      fun h => absurd h hgt, fun _ => ?_⟩
    obtain ⟨l1, l2, hl⟩ := insertAfter_eq_append d ev.target (items.erase d) ht'
    exact ⟨l1, l2, by simpa [hgt, moveAfter] using hl⟩

/-- Witness for C1: dragging item 0 onto item 2 in [0,1,2,3] gives a
permutation of the original list in which the target 2 is immediately
followed by the dragged 0. -/
theorem C1_witness :
    List.Perm (handleDrop ⟨[0, 1, 2, 3], some 0⟩ (mkEvent 2)).1.items [0, 1, 2, 3] ∧
    immediatelyBefore 2 0 (handleDrop ⟨[0, 1, 2, 3], some 0⟩ (mkEvent 2)).1.items := by
  have h := C1_drop_reorder.1 [0, 1, 2, 3] 0 (mkEvent 2)
    (by decide) (by decide) (by decide)
  exact ⟨h.1, h.2.2 (by decide)⟩

/-- Claim C2: for every drop handled in the Dragging state with dragged
distinct from target, the event handed to the onDrop hook carries
oldpos and newpos equal to the ordinal indices of the dragged and the
target element in the pre-move item sequence. -/
theorem C2_drop_positions (items : List Nat) (d : Nat) (ev : DragEvent)
    (_hd : d ∈ items) (_ht : ev.target ∈ items) (hne : d ≠ ev.target) :
    (handleDrop ⟨items, some d⟩ ev).2.1.oldpos = some (indexOf d items) ∧
    (handleDrop ⟨items, some d⟩ ev).2.1.newpos = some (indexOf ev.target items) ∧
    (handleDrop ⟨items, some d⟩ ev).2.2
      = [Callback.onDrop (handleDrop ⟨items, some d⟩ ev).2.1] := by
  simp [handleDrop, hne]

/-- Witness for C2: dropping dragged 0 onto target 2 in [0,1,2,3]
reports oldpos 0 and newpos 2 to onDrop. -/
theorem C2_witness :
    (handleDrop ⟨[0, 1, 2, 3], some 0⟩ (mkEvent 2)).2.1.oldpos = some (indexOf 0 [0, 1, 2, 3]) ∧
    (handleDrop ⟨[0, 1, 2, 3], some 0⟩ (mkEvent 2)).2.1.newpos = some (indexOf 2 [0, 1, 2, 3]) ∧
    (handleDrop ⟨[0, 1, 2, 3], some 0⟩ (mkEvent 2)).2.2
      = [Callback.onDrop (handleDrop ⟨[0, 1, 2, 3], some 0⟩ (mkEvent 2)).2.1] :=
  C2_drop_positions [0, 1, 2, 3] 0 (mkEvent 2) (by decide) (by decide) (by decide)

/-- Claim C3: a drop handled in the Dragging state whose target is the
dragged element itself leaves the instance state (item order included)
completely unchanged and invokes no callback. -/
theorem C3_self_drop_noop (s : ListState) (d : Nat) (ev : DragEvent)
    (hdrag : s.dragging = some d) (htgt : ev.target = d) :
    (handleDrop s ev).1 = s ∧ (handleDrop s ev).2.2 = [] := by
  simp [handleDrop, hdrag, htgt]

/-- Witness for C3: a self-drop of item 0 in [0,1,2,3] changes nothing
and fires no callback. -/
theorem C3_witness :
    (handleDrop ⟨[0, 1, 2, 3], some 0⟩ (mkEvent 0)).1 = ⟨[0, 1, 2, 3], some 0⟩ ∧
    (handleDrop ⟨[0, 1, 2, 3], some 0⟩ (mkEvent 0)).2.2 = [] :=
  C3_self_drop_noop ⟨[0, 1, 2, 3], some 0⟩ 0 (mkEvent 0) rfl rfl

/-- Counterexample to claim C4: in a Dragging state (dragging = some 0),
handleDragStart does not leave the dragged reference unchanged and does
not skip onStart; there is no Idle guard on dragstart. -/
theorem C4_counterexample :
    ¬((handleDragStart ⟨[0, 1], some 0⟩ (mkEvent 1)).1.dragging = some 0 ∧
      (handleDragStart ⟨[0, 1], some 0⟩ (mkEvent 1)).2.2 = []) := by
  decide

/-- Claim C4 as amended: a dragstart event is acted upon in every state,
not only in Idle: it sets the dragged reference to the event target,
sets transfer-intent to move, invokes onStart, and the machine is
Dragging afterwards; a dragstart arriving while a session is active
overwrites the dragged reference and invokes onStart again. -/
theorem C4_dragstart_unconditional (s : ListState) (ev : DragEvent) :
    (handleDragStart s ev).1.dragging = some ev.target ∧
    (handleDragStart s ev).1.items = s.items ∧
    (handleDragStart s ev).2.1.effectAllowed = some "move" ∧
    (handleDragStart s ev).2.2
      = [Callback.onStart (handleDragStart s ev).2.1] := by
  simp [handleDragStart]

/-- Claim C5: a dragover dispatched while Idle leaves the event entirely
untouched (so its default-prevented flag stays false) and invokes no
callback; a dragover dispatched while Dragging prevents default, sets
drop-intent to move, and invokes onOver. -/
theorem C5_dragover_guard :
    (∀ (s : ListState) (ev : DragEvent), s.dragging = none →
        handleDragOver s ev = (s, ev, [])) ∧
    (∀ (s : ListState) (ev : DragEvent) (d : Nat), s.dragging = some d →
        (handleDragOver s ev).2.1.defaultPrevented = true ∧
        (handleDragOver s ev).2.1.dropEffect = some "move" ∧
        (handleDragOver s ev).2.2
          = [Callback.onOver (handleDragOver s ev).2.1]) := by
  constructor
  · intro s ev h
    simp [handleDragOver, h]
  · intro s ev d h
    simp [handleDragOver, h]

/-- Witness for C5: an Idle dragover returns the fresh event unchanged
with no callback; a Dragging dragover sets the default-prevented flag. -/
theorem C5_witness :
    handleDragOver ⟨[0, 1], none⟩ (mkEvent 1) = (⟨[0, 1], none⟩, mkEvent 1, []) ∧
    (handleDragOver ⟨[0, 1], some 0⟩ (mkEvent 1)).2.1.defaultPrevented = true :=
  ⟨C5_dragover_guard.1 ⟨[0, 1], none⟩ (mkEvent 1) rfl,
   (C5_dragover_guard.2 ⟨[0, 1], some 0⟩ (mkEvent 1) 0 rfl).1⟩

/-- Claim C7: a dragend is handled from any state with no guard: the
machine ends Idle with the dragged reference cleared, the item order is
untouched, and onEnd is invoked — also when no drop preceded it. -/
theorem C7_dragend_unconditional (s : ListState) (ev : DragEvent) :
    (handleDragEnd s ev).1.dragging = none ∧
    (handleDragEnd s ev).1.items = s.items ∧
    (handleDragEnd s ev).2.2 = [Callback.onEnd ev] := by
  simp [handleDragEnd]

/-- Claim C9: every drop handled while a session is active suppresses
the event's default handling and stops its propagation (also immediate),
independently of the self-drop check; a drop while Idle leaves state,
event and callbacks entirely untouched. -/
theorem C9_drop_suppression :
    (∀ (s : ListState) (d : Nat) (ev : DragEvent), s.dragging = some d →
        (handleDrop s ev).2.1.defaultPrevented = true ∧
        (handleDrop s ev).2.1.propagationStopped = true ∧
        (handleDrop s ev).2.1.immediatePropagationStopped = true) ∧
    (∀ (s : ListState) (ev : DragEvent), s.dragging = none →
        handleDrop s ev = (s, ev, [])) := by
  constructor
  · intro s d ev h
    simp only [handleDrop, h]
    split <;> simp
  · intro s ev h
    simp [handleDrop, h]

/-- Witness for C9, at a self-drop: even with dragged equal to target the
three suppression flags are set. -/
theorem C9_witness :
    (handleDrop ⟨[0, 1], some 0⟩ (mkEvent 0)).2.1.defaultPrevented = true ∧
    (handleDrop ⟨[0, 1], some 0⟩ (mkEvent 0)).2.1.propagationStopped = true ∧
    (handleDrop ⟨[0, 1], some 0⟩ (mkEvent 0)).2.1.immediatePropagationStopped = true :=
  C9_drop_suppression.1 ⟨[0, 1], some 0⟩ 0 (mkEvent 0) rfl

/-!
Invariants of the registration bookkeeping.
-/

/-- The element's live listener count agrees with its registry: one live
subscription per stored handle, none otherwise. -/
def PairInv (elem : Nat) (ls : Nat × DragEventName → Nat)
    (reg : List DragEventName) : Prop :=
  ∀ evn, ls (elem, evn) = if evn ∈ reg then 1 else 0

/-- Global bookkeeping invariant: every element's live listener count per
event name agrees with the registry stored for it in the Map. -/
def RegInv (s : RegState) : Prop :=
  ∀ e evn, s.listeners (e, evn)
    = if evn ∈ mapGet s.registration e [] then 1 else 0

lemma mapGet_mapSet {α : Type} (m : List (Nat × α)) (e e' : Nat) (v d : α) :
    mapGet (mapSet m e v) e' d = if e' = e then v else mapGet m e' d := by
  induction m with
  | nil =>
    by_cases h : e' = e
    · simp [mapSet, mapGet, h]
    · have h2 : ¬ e = e' := fun hh => h hh.symm
      simp [mapSet, mapGet, h, h2]
  | cons kv rest ih =>
    obtain ⟨k, w⟩ := kv
    by_cases hk : k = e
    · subst hk
      by_cases he : e' = k
      · simp [mapSet, mapGet, he]
      · have h2 : ¬ k = e' := fun hh => he hh.symm
        simp [mapSet, mapGet, he, h2]
    · by_cases hke : k = e'
      · have h2 : ¬ e' = e := fun hh => hk (hke.trans hh)
        simp [mapSet, mapGet, hk, hke, h2]
      · simp [mapSet, mapGet, hk, hke, ih]

lemma regStep_listeners_other (elem : Nat) (enabled : Bool)
    (st : (Nat × DragEventName → Nat) × List DragEventName)
    (evn' : DragEventName) (p : Nat × DragEventName)
    (hp : p ≠ (elem, evn')) :
    (regStep elem enabled st evn').1 p = st.1 p := by
  rcases st with ⟨ls, reg⟩
  by_cases hm : evn' ∈ reg <;> cases enabled <;> simp [regStep, hm, hp]

lemma foldl_regStep_listeners_other (elem : Nat) (enabled : Bool)
    (evs : List DragEventName) :
    ∀ (st : (Nat × DragEventName → Nat) × List DragEventName)
      (p : Nat × DragEventName), p.1 ≠ elem →
      ((evs.foldl (regStep elem enabled) st).1) p = st.1 p := by
  induction evs with
  | nil =>
    intro st p _
    rfl
  | cons evn' rest ih =>
    intro st p hp
    rw [List.foldl_cons, ih _ p hp]
    exact regStep_listeners_other elem enabled st evn' p
      (fun hcontra => hp (by rw [hcontra]))

lemma regStep_spec (elem : Nat) (enabled : Bool)
    (ls : Nat × DragEventName → Nat) (reg : List DragEventName)
    (evn' : DragEventName) (h : PairInv elem ls reg) :
    PairInv elem ((regStep elem enabled (ls, reg) evn').1)
        ((regStep elem enabled (ls, reg) evn').2) ∧
    ((evn' ∈ (regStep elem enabled (ls, reg) evn').2) ↔ enabled = true) ∧
    (∀ evn, evn ≠ evn' →
      ((evn ∈ (regStep elem enabled (ls, reg) evn').2) ↔ evn ∈ reg)) := by
  refine ⟨?_, ?_, ?_⟩
  · intro evn
    have hcount := h evn
    by_cases hq : evn = evn'
    · subst hq
      by_cases hm : evn ∈ reg <;> cases enabled <;>
        simp_all [regStep, List.mem_filter]
    · by_cases hm : evn' ∈ reg <;> cases enabled <;>
        simp_all [regStep, List.mem_filter, hq]
  · by_cases hm : evn' ∈ reg <;> cases enabled <;>
      simp [regStep, hm, List.mem_filter]
  · intro evn hne
    by_cases hm : evn' ∈ reg <;> cases enabled <;>
      simp [regStep, hm, List.mem_filter, hne]

lemma foldl_regStep_spec (elem : Nat) (enabled : Bool)
    (evs : List DragEventName) :
    ∀ (ls : Nat × DragEventName → Nat) (reg : List DragEventName),
      PairInv elem ls reg →
      PairInv elem ((evs.foldl (regStep elem enabled) (ls, reg)).1)
          ((evs.foldl (regStep elem enabled) (ls, reg)).2) ∧
      (∀ evn, evn ∈ evs →
        ((evn ∈ (evs.foldl (regStep elem enabled) (ls, reg)).2)
          ↔ enabled = true)) ∧
      (∀ evn, evn ∉ evs →
        ((evn ∈ (evs.foldl (regStep elem enabled) (ls, reg)).2)
          ↔ evn ∈ reg)) := by
  induction evs with
  | nil =>
    intro ls reg h
    exact ⟨h, by simp, fun evn _ => Iff.rfl⟩
  | cons evn' rest ih =>
    intro ls reg h
    have hstep := regStep_spec elem enabled ls reg evn' h
    have heq : (evn' :: rest).foldl (regStep elem enabled) (ls, reg)
        = rest.foldl (regStep elem enabled)
            ((regStep elem enabled (ls, reg) evn').1,
             (regStep elem enabled (ls, reg) evn').2) := by
      simp [List.foldl_cons]
    have ihr := ih (regStep elem enabled (ls, reg) evn').1
      (regStep elem enabled (ls, reg) evn').2 hstep.1
    rw [heq]
    refine ⟨ihr.1, ?_, ?_⟩
    · intro evn hmem
      by_cases hin : evn ∈ rest
      · exact ihr.2.1 evn hin
      · have hevn : evn = evn' := by
          rcases List.mem_cons.mp hmem with h1 | h1
          · exact h1
          · exact absurd h1 hin
        subst hevn
        exact (ihr.2.2 evn hin).trans hstep.2.1
    · intro evn hmem
      have hne : evn ≠ evn' := fun hh => hmem (hh ▸ List.mem_cons_self evn' rest)
      have hnr : evn ∉ rest := fun hh => hmem (List.mem_cons_of_mem evn' hh)
      exact (ihr.2.2 evn hnr).trans (hstep.2.2 evn hne)

lemma initRegState_regInv (le : Nat) : RegInv (initRegState le) := by
  intro e evn
  simp [initRegState, mapGet]

lemma registerDelegation_regInv (s : RegState) (enabled : Bool)
    (h : RegInv s) : RegInv (registerDelegation s enabled) := by
  intro e evn
  have hfold := foldl_regStep_spec s.listElem enabled DRAG_METHODS s.listeners
    (mapGet s.registration s.listElem []) (fun evn => h s.listElem evn)
  show (DRAG_METHODS.foldl (regStep s.listElem enabled)
      (s.listeners, mapGet s.registration s.listElem [])).1 (e, evn) = _
  rw [show (registerDelegation s enabled).registration
      = mapSet s.registration s.listElem
          (DRAG_METHODS.foldl (regStep s.listElem enabled)
            (s.listeners, mapGet s.registration s.listElem [])).2 from rfl]
  rw [mapGet_mapSet]
  by_cases he : e = s.listElem
  · subst he
    simpa using hfold.1 evn
  · rw [if_neg he]
    rw [foldl_regStep_listeners_other s.listElem enabled DRAG_METHODS _ (e, evn) he]
    exact h e evn

lemma registerDelegation_count (s : RegState) (enabled : Bool)
    (h : RegInv s) (evn : DragEventName) (hevn : evn ∈ DRAG_METHODS) :
    (registerDelegation s enabled).listeners (s.listElem, evn)
      = if enabled then 1 else 0 := by
  have hfold := foldl_regStep_spec s.listElem enabled DRAG_METHODS s.listeners
    (mapGet s.registration s.listElem []) (fun evn => h s.listElem evn)
  have h1 := hfold.1 evn
  have h2 := hfold.2.1 evn hevn
  show (DRAG_METHODS.foldl (regStep s.listElem enabled)
      (s.listeners, mapGet s.registration s.listElem [])).1 (s.listElem, evn) = _
  rw [h1]
  cases enabled <;> simp_all

lemma registerDelegation_listeners_other (s : RegState) (enabled : Bool)
    (p : Nat × DragEventName) (hp : p.1 ≠ s.listElem) :
    (registerDelegation s enabled).listeners p = s.listeners p :=
  foldl_regStep_listeners_other s.listElem enabled DRAG_METHODS _ p hp

lemma makeDraggableOne_attrs (delegated enabled : Bool) (s : RegState)
    (e : Nat) :
    (makeDraggableOne delegated enabled s e).attrs
      = mapSet s.attrs e (if enabled then "true" else "false") := by
  by_cases hd : delegated <;> simp [makeDraggableOne, hd]

lemma makeDraggableOne_listElem (delegated enabled : Bool) (s : RegState)
    (e : Nat) :
    (makeDraggableOne delegated enabled s e).listElem = s.listElem := by
  by_cases hd : delegated <;> simp [makeDraggableOne, hd]

lemma makeDraggableOne_regInv (delegated enabled : Bool) (s : RegState)
    (e : Nat) (h : RegInv s) :
    RegInv (makeDraggableOne delegated enabled s e) := by
  by_cases hd : delegated
  · intro e' evn
    simp only [makeDraggableOne, hd, if_pos]
    exact h e' evn
  · intro e' evn
    have hfold := foldl_regStep_spec e enabled DRAG_METHODS s.listeners
      (mapGet s.registration e []) (fun evn => h e evn)
    have hred : makeDraggableOne delegated enabled s e
        = { s with
            listeners := (DRAG_METHODS.foldl (regStep e enabled)
              (s.listeners, mapGet s.registration e [])).1,
            registration := mapSet s.registration e
              (DRAG_METHODS.foldl (regStep e enabled)
                (s.listeners, mapGet s.registration e [])).2,
            attrs := mapSet s.attrs e (if enabled then "true" else "false") } := by
      simp [makeDraggableOne, hd]
    rw [hred]
    show (DRAG_METHODS.foldl (regStep e enabled)
        (s.listeners, mapGet s.registration e [])).1 (e', evn) = _
    rw [show ({ s with
            listeners := (DRAG_METHODS.foldl (regStep e enabled)
              (s.listeners, mapGet s.registration e [])).1,
            registration := mapSet s.registration e
              (DRAG_METHODS.foldl (regStep e enabled)
                (s.listeners, mapGet s.registration e [])).2,
            attrs := mapSet s.attrs e (if enabled then "true" else "false") } : RegState).registration
        = mapSet s.registration e
            (DRAG_METHODS.foldl (regStep e enabled)
              (s.listeners, mapGet s.registration e [])).2 from rfl]
    rw [mapGet_mapSet]
    by_cases he : e' = e
    · subst he
      simpa using hfold.1 evn
    · rw [if_neg he]
      rw [foldl_regStep_listeners_other e enabled DRAG_METHODS _ (e', evn) he]
      exact h e' evn

lemma makeDraggableOne_count (enabled : Bool) (s : RegState) (e : Nat)
    (h : RegInv s) (evn : DragEventName) (hevn : evn ∈ DRAG_METHODS) :
    (makeDraggableOne false enabled s e).listeners (e, evn)
      = if enabled then 1 else 0 := by
  have hfold := foldl_regStep_spec e enabled DRAG_METHODS s.listeners
    (mapGet s.registration e []) (fun evn => h e evn)
  have h1 := hfold.1 evn
  have h2 := hfold.2.1 evn hevn
  show (DRAG_METHODS.foldl (regStep e enabled)
      (s.listeners, mapGet s.registration e [])).1 (e, evn) = _
  rw [h1]
  cases enabled <;> simp_all

lemma makeDraggableOne_listeners_other (delegated enabled : Bool)
    (s : RegState) (e : Nat) (p : Nat × DragEventName) (hp : p.1 ≠ e) :
    (makeDraggableOne delegated enabled s e).listeners p = s.listeners p := by
  by_cases hd : delegated
  · simp [makeDraggableOne, hd]
  · simp only [makeDraggableOne, hd, if_neg, ite_false]
    exact foldl_regStep_listeners_other e enabled DRAG_METHODS _ p hp

lemma foldl_makeDraggableOne_listeners_other (delegated enabled : Bool)
    (l : List Nat) :
    ∀ (s : RegState) (p : Nat × DragEventName), p.1 ∉ l →
      (l.foldl (makeDraggableOne delegated enabled) s).listeners p
        = s.listeners p := by
  induction l with
  | nil =>
    intro s p _
    rfl
  | cons x xs ih =>
    intro s p hp
    rw [List.foldl_cons]
    rw [ih _ p (fun hh => hp (List.mem_cons_of_mem x hh))]
    exact makeDraggableOne_listeners_other delegated enabled s x p
      (fun hh => hp (by rw [hh]; exact List.mem_cons_self x xs))

lemma foldl_makeDraggableOne_attrs_other (delegated enabled : Bool)
    (l : List Nat) :
    ∀ (s : RegState) (e : Nat), e ∉ l →
      mapGet (l.foldl (makeDraggableOne delegated enabled) s).attrs e ""
        = mapGet s.attrs e "" := by
  induction l with
  | nil =>
    intro s e _
    rfl
  | cons x xs ih =>
    intro s e he
    rw [List.foldl_cons]
    rw [ih _ e (fun hh => he (List.mem_cons_of_mem x hh))]
    rw [makeDraggableOne_attrs, mapGet_mapSet]
    rw [if_neg (fun hh => he (by rw [hh]; exact List.mem_cons_self x xs))]

lemma foldl_makeDraggableOne_spec (delegated enabled : Bool) (l : List Nat) :
    ∀ (s : RegState), RegInv s → l.Nodup →
      RegInv (l.foldl (makeDraggableOne delegated enabled) s) ∧
      (∀ e ∈ l, mapGet (l.foldl (makeDraggableOne delegated enabled) s).attrs e ""
          = if enabled then "true" else "false") ∧
      (delegated = false → ∀ e ∈ l, ∀ evn ∈ DRAG_METHODS,
          (l.foldl (makeDraggableOne delegated enabled) s).listeners (e, evn)
            = if enabled then 1 else 0) := by
  induction l with
  | nil =>
    intro s h _
    exact ⟨h, by simp, by simp⟩
  | cons x xs ih =>
    intro s h hnd
    have hnx : x ∉ xs := (List.nodup_cons.mp hnd).1
    have hnd' : xs.Nodup := (List.nodup_cons.mp hnd).2
    have hinv1 := makeDraggableOne_regInv delegated enabled s x h
    have ihr := ih (makeDraggableOne delegated enabled s x) hinv1 hnd'
    rw [List.foldl_cons]
    refine ⟨ihr.1, ?_, ?_⟩
    · intro e he
      by_cases hin : e ∈ xs
      · exact ihr.2.1 e hin
      · have hex : e = x := by
          rcases List.mem_cons.mp he with h1 | h1
          · exact h1
          · exact absurd h1 hin
        subst hex
        rw [foldl_makeDraggableOne_attrs_other delegated enabled xs _ e hin]
        rw [makeDraggableOne_attrs, mapGet_mapSet, if_pos rfl]
    · intro hdel e he evn hevn
      by_cases hin : e ∈ xs
      · exact ihr.2.2 hdel e hin evn hevn
      · have hex : e = x := by
          rcases List.mem_cons.mp he with h1 | h1
          · exact h1
          · exact absurd h1 hin
        subst hex
        rw [foldl_makeDraggableOne_listeners_other delegated enabled xs _ (e, evn) hin]
        subst hdel
        exact makeDraggableOne_count enabled s e h evn hevn

lemma makeDraggableLoop_regInv (delegated enabled : Bool) :
    ∀ (elems : List (Option Nat)) (s : RegState), RegInv s →
      RegInv (makeDraggableLoop delegated enabled s elems).1 := by
  intro elems
  induction elems with
  | nil =>
    intro s h
    exact h
  | cons x rest ih =>
    intro s h
    cases x with
    | none => exact h
    | some e =>
      exact ih _ (makeDraggableOne_regInv delegated enabled s e h)

lemma runOps_regInv (delegated : Bool) (ops : List RegOp) :
    ∀ (s : RegState), RegInv s → RegInv (runOps delegated s ops) := by
  induction ops with
  | nil =>
    intro s h
    exact h
  | cons op rest ih =>
    intro s h
    rw [runOps, List.foldl_cons]
    apply ih
    cases op with
    | deleg enabled => exact registerDelegation_regInv s enabled h
    | makeDrag enabled elems =>
      exact makeDraggableLoop_regInv delegated enabled (elems.map some) s h

/-- Claim C6: the registration bookkeeping keeps at most one live
subscription per event name per element across any sequence of
enable/disable calls; re-enabling (registerDelegation true, or the
non-delegated makeDraggable body) on an element with live subscriptions
yields exactly one live subscription per drag event name (so one
callback invocation per dispatched event, not two), and after
registerDelegation false the container has zero live subscriptions for
each of the six events. -/
theorem C6_registration_idempotent :
    (∀ (delegated : Bool) (le : Nat) (ops : List RegOp) (e : Nat)
        (evn : DragEventName),
        (runOps delegated (initRegState le) ops).listeners (e, evn) ≤ 1) ∧
    (∀ (s : RegState) (enabled : Bool) (evn : DragEventName), RegInv s →
        evn ∈ DRAG_METHODS →
        (registerDelegation s enabled).listeners (s.listElem, evn)
          = if enabled then 1 else 0) ∧
    (∀ (s : RegState) (enabled : Bool) (e : Nat) (evn : DragEventName),
        RegInv s → evn ∈ DRAG_METHODS →
        (makeDraggableOne false enabled s e).listeners (e, evn)
          = if enabled then 1 else 0) := by
  refine ⟨?_, ?_, ?_⟩
  · intro delegated le ops e evn
    have h := runOps_regInv delegated ops (initRegState le)
      (initRegState_regInv le) e evn
    rw [h]
    split <;> simp
  · intro s enabled evn h hevn
    exact registerDelegation_count s enabled h evn hevn
  · intro s enabled e evn h hevn
    exact makeDraggableOne_count enabled s e h evn hevn

/-- Witness for C6: enabling delegation twice on a fresh container leaves
exactly one live dragstart subscription, and a following disable leaves
zero. -/
theorem C6_witness :
    (registerDelegation (registerDelegation (initRegState 0) true) true).listeners
        (0, DragEventName.dragstart) = 1 ∧
    (registerDelegation (registerDelegation (initRegState 0) true) false).listeners
        (0, DragEventName.dragstart) = 0 := by
  have hinv : RegInv (registerDelegation (initRegState 0) true) :=
    registerDelegation_regInv (initRegState 0) true (initRegState_regInv 0)
  have h1 := C6_registration_idempotent.2.1 (registerDelegation (initRegState 0) true)
    true DragEventName.dragstart hinv (by decide)
  have h2 := C6_registration_idempotent.2.1 (registerDelegation (initRegState 0) true)
    false DragEventName.dragstart hinv (by decide)
  exact ⟨by simpa using h1, by simpa using h2⟩

/-- Claim C8: construction with a container reference that does not
resolve to an element yields the synchronous TypeError, and the
makeDraggable loop yields the synchronous TypeError whenever an
explicitly passed item fails to resolve to an element; neither error is
swallowed. -/
theorem C8_fail_fast :
    (∀ (doc : String → Option Nat) (ref : ElemRef) (opts : CtorOpts)
        (listItems : List Nat), resolveRef doc ref = none →
        constructList doc ref opts listItems = Except.error "invalid Element") ∧
    (∀ (delegated enabled : Bool) (s : RegState) (l : List Nat)
        (rest : List (Option Nat)),
        (makeDraggableLoop delegated enabled s (l.map some ++ none :: rest)).2
          = true) := by
  constructor
  · intro doc ref opts listItems h
    simp [constructList, h]
  · intro delegated enabled s l rest
    induction l generalizing s with
    | nil => simp [makeDraggableLoop]
    | cons x xs ih => simpa [makeDraggableLoop] using ih _

/-- Witness for C8: a selector that matches nothing makes the constructor
fail, and a non-resolving second item makes makeDraggable fail. -/
theorem C8_witness :
    constructList (fun _ => none) (ElemRef.sel "#list") ⟨true, none⟩ []
      = Except.error "invalid Element" ∧
    (makeDraggableLoop true true (initRegState 0)
        ([1].map some ++ none :: [])).2 = true :=
  ⟨C8_fail_fast.1 (fun _ => none) (ElemRef.sel "#list") ⟨true, none⟩ [] rfl,
   C8_fail_fast.2 true true (initRegState 0) [1] []⟩

/-- Claim C10: makeDraggable is not atomic on error: when the items list
is a block of resolving items followed by a non-resolving one, the loop
stops with the error while the state equals the full processing of the
resolving prefix — each prefix item has its draggable attribute written
and, in non-delegated mode, its per-event subscriptions installed or
removed — with no rollback. -/
theorem C10_makeDraggable_not_atomic (delegated enabled : Bool)
    (s : RegState) (l : List Nat) (rest : List (Option Nat))
    (hinv : RegInv s) (hnd : l.Nodup) :
    makeDraggableLoop delegated enabled s (l.map some ++ none :: rest)
      = (l.foldl (makeDraggableOne delegated enabled) s, true) ∧
    (∀ e ∈ l, mapGet (l.foldl (makeDraggableOne delegated enabled) s).attrs e ""
        = if enabled then "true" else "false") ∧
    (delegated = false → ∀ e ∈ l, ∀ evn ∈ DRAG_METHODS,
        (l.foldl (makeDraggableOne delegated enabled) s).listeners (e, evn)
          = if enabled then 1 else 0) := by
  have hspec := foldl_makeDraggableOne_spec delegated enabled l s hinv hnd
  refine ⟨?_, hspec.2.1, hspec.2.2⟩
  clear hspec hinv hnd
  induction l generalizing s with
  | nil => simp [makeDraggableLoop]
  | cons x xs ih => simpa [makeDraggableLoop] using ih _

/-- Witness for C10: items [5] then a non-resolving entry, on a fresh
non-delegated instance: the loop errors, the state is the one-step fold,
item 5 has its attribute set to "true" and one live drop subscription. -/
theorem C10_witness :
    makeDraggableLoop false true (initRegState 9) ([5].map some ++ none :: [])
      = ([5].foldl (makeDraggableOne false true) (initRegState 9), true) ∧
    mapGet ([5].foldl (makeDraggableOne false true) (initRegState 9)).attrs 5 ""
      = "true" ∧
    ([5].foldl (makeDraggableOne false true) (initRegState 9)).listeners
      (5, DragEventName.drop) = 1 := by
  have h := C10_makeDraggable_not_atomic false true (initRegState 9) [5] []
    (initRegState_regInv 9) (by simp)
  refine ⟨h.1, ?_, ?_⟩
  · simpa using h.2.1 5 (by simp)
  · simpa using h.2.2 rfl 5 (by simp) DragEventName.drop (by decide)

end DraggableList
